import Mathlib

/-!
Verification of the deferred-execution core of the persona-mcp server:
the in-memory `RateLimiter` (src rate-limiter module) and the
`InMemoryScheduler` (src scheduler module), shallowly embedded in Lean.

JavaScript `Map` objects are embedded as association lists with the
`Map` operations `get` / `set` / `delete` (insertion order preserved,
`set` on an existing key updates in place).  `Date.now()` / `new Date()`
timestamps are passed in explicitly as natural numbers; JS number
arithmetic on counters is embedded with `Int` where a subtraction could
go negative.
-/

set_option autoImplicit false

namespace PersonaMcp

universe u v

variable {α : Type u} {β : Type v}

/-- `Map.get`: the value of the first (for a JS map, the unique) entry with the given key. -/
def lookupA [DecidableEq α] (k : α) : List (α × β) → Option β
  | [] => none
  | e :: rest => if e.1 = k then some e.2 else lookupA k rest

/-- `Map.set`: update the entry with key `k` in place, or append a new entry. -/
def setA [DecidableEq α] (k : α) (v : β) : List (α × β) → List (α × β)
  | [] => [(k, v)]
  | e :: rest => if e.1 = k then (k, v) :: rest else e :: setA k v rest

/-- `Map.delete`: remove the (first) entry with key `k`. -/
def eraseA [DecidableEq α] (k : α) : List (α × β) → List (α × β)
  | [] => []
  | e :: rest => if e.1 = k then rest else e :: eraseA k rest

/-- A JS map has pairwise-distinct keys. -/
def KeysDistinct (l : List (α × β)) : Prop :=
  l.Pairwise (fun a b => a.1 ≠ b.1)

/-! ## RateLimiter (src rate-limiter module) -/

/-- `RateLimitEntry`: per-key counter state. -/
structure RLEntry where
  count : Nat
  resetAt : Nat
  deriving Repr, DecidableEq

/-- `RateLimitResult` from the shared types module; `remaining` is a JS
number that the source computes by subtraction, embedded as `Int`. -/
structure RateLimitResult where
  allowed : Bool
  remaining : Int
  resetAt : Nat
  deriving Repr, DecidableEq

/-- The `RateLimiter` class state: the `limits` map plus its (immutable)
configuration.  The background-cleanup timer handle is omitted: it only
drives `cleanup`, which the spec treats as advisory housekeeping. -/
structure RateLimiter where
  limits : List (String × RLEntry)
  maxRequests : Nat
  windowMs : Nat
  deriving Repr, DecidableEq

namespace RateLimiter

/-- `RateLimiter.check`: look up the key's entry; absent or expired
(`now > resetAt`) starts a fresh window; a saturated window rejects
without mutation; otherwise the count is incremented. -/
def check (rl : RateLimiter) (key : String) (now : Nat) : RateLimitResult × RateLimiter :=
  match lookupA key rl.limits with
  | none =>
      (⟨true, (rl.maxRequests : Int) - 1, now + rl.windowMs⟩,
       { rl with limits := setA key ⟨1, now + rl.windowMs⟩ rl.limits })
  | some entry =>
      if now > entry.resetAt then
        (⟨true, (rl.maxRequests : Int) - 1, now + rl.windowMs⟩,
         { rl with limits := setA key ⟨1, now + rl.windowMs⟩ rl.limits })
      else if entry.count ≥ rl.maxRequests then
        (⟨false, 0, entry.resetAt⟩, rl)
      else
        (⟨true, (rl.maxRequests : Int) - (entry.count + 1), entry.resetAt⟩,
         { rl with limits := setA key ⟨entry.count + 1, entry.resetAt⟩ rl.limits })

/-- `RateLimiter.peek`: same read logic as `check` but with no writes;
returned together with the (unchanged) state to mirror the method call. -/
def peek (rl : RateLimiter) (key : String) (now : Nat) : RateLimitResult × RateLimiter :=
  match lookupA key rl.limits with
  | none => (⟨true, (rl.maxRequests : Int), now + rl.windowMs⟩, rl)
  | some entry =>
      if now > entry.resetAt then
        (⟨true, (rl.maxRequests : Int), now + rl.windowMs⟩, rl)
      else
        (⟨decide (entry.count < rl.maxRequests),
          max 0 ((rl.maxRequests : Int) - (entry.count : Int)), entry.resetAt⟩, rl)

/-- A sequence of `check` calls on one key at the given times, collecting
the results and threading the limiter state. -/
def checkRun (rl : RateLimiter) (key : String) : List Nat → List RateLimitResult × RateLimiter
  | [] => ([], rl)
  | t :: rest =>
      ((check rl key t).1 :: (checkRun (check rl key t).2 key rest).1,
       (checkRun (check rl key t).2 key rest).2)

end RateLimiter

/-! ## InMemoryScheduler (src scheduler module) -/

/-- `TargetType` from the shared types module. -/
inductive TargetType where
  | user
  | group
  deriving Repr, DecidableEq

/-- `ExecutionStatus` from the shared types module. -/
inductive ExecutionStatus where
  | sent
  | scheduled
  | created
  | requiresConfirmation
  | failed
  deriving Repr, DecidableEq

/-- `ExecutionResult` from the shared types module (the provider's
resolved value; `timestamp` is irrelevant to the scheduler and omitted). -/
structure ExecutionResult where
  status : ExecutionStatus
  executionId : Option String := none
  jobId : Option String := none
  eventId : Option String := none
  error : Option String := none
  deriving Repr, DecidableEq

/-- `NotificationRequest` from the shared types module. -/
structure NotificationRequest where
  targetType : TargetType
  targetId : String
  message : String
  confirm : Bool
  deriving Repr, DecidableEq

/-- `ScheduleRequest`: a notification request plus scheduling data.
`executeAt` arrives as an ISO string in the source and is immediately
parsed with `new Date(...)`; it is embedded as the parsed timestamp. -/
structure ScheduleRequest where
  targetType : TargetType
  targetId : String
  message : String
  confirm : Bool
  executeAt : Nat
  idempotencyKey : String
  deriving Repr, DecidableEq

/-- Job status: `'pending' | 'executed' | 'failed'`. -/
inductive JobStatus where
  | pending
  | executed
  | failed
  deriving Repr, DecidableEq

/-- `ScheduledJob` from the shared types module.  Job ids are the opaque
unique strings produced by `generateJobId`; they are embedded as the
naturals handed out by a fresh counter (see `Scheduler.nextId`). -/
structure ScheduledJob where
  id : Nat
  idempotencyKey : String
  executeAt : Nat
  request : NotificationRequest
  status : JobStatus
  createdAt : Nat
  executedAt : Option Nat := none
  error : Option String := none
  deriving Repr, DecidableEq

/-- The outcome of awaiting `provider.send`: either a resolved
`ExecutionResult` or a thrown error, embedded by the message string the
scheduler's `catch` block would extract from it. -/
inductive SendOutcome where
  | ok (result : ExecutionResult)
  | thrown (msg : String)

/-- The injected delivery capability (`INotificationProvider.send`). -/
def Provider : Type :=
  NotificationRequest → SendOutcome

/-- The `InMemoryScheduler` class state: the job table, the idempotency
index, the optional provider, and the fresh-id counter standing for
`generateJobId`'s unique-id supply.  The sweep timer handle is omitted:
one timer firing is modelled as an explicit `processJobs` call. -/
structure Scheduler where
  jobs : List (Nat × ScheduledJob)
  idempotencyIndex : List (String × Nat)
  provider : Option Provider
  nextId : Nat

namespace Scheduler

/-- The fresh scheduler (`new InMemoryScheduler()`). -/
def init : Scheduler :=
  { jobs := [], idempotencyIndex := [], provider := none, nextId := 0 }

/-- `setProvider`. -/
def setProvider (s : Scheduler) (p : Provider) : Scheduler :=
  { s with provider := some p }

/-- The `ScheduledJob` object literal built by `schedule`: `confirm` is
forced `true`, status starts `pending`, `createdAt` is the current time. -/
def newJob (jobId : Nat) (request : ScheduleRequest) (now : Nat) : ScheduledJob :=
  { id := jobId
    idempotencyKey := request.idempotencyKey
    executeAt := request.executeAt
    request :=
      { targetType := request.targetType
        targetId := request.targetId
        message := request.message
        confirm := true }
    status := JobStatus.pending
    createdAt := now }

/-- `schedule`: if the idempotency key is already mapped, return the
existing job id with `isNew = false` and no mutation; otherwise insert a
fresh pending job and record the idempotency mapping. -/
def schedule (s : Scheduler) (request : ScheduleRequest) (now : Nat) :
    (Nat × Bool) × Scheduler :=
  match lookupA request.idempotencyKey s.idempotencyIndex with
  | some existingJobId => ((existingJobId, false), s)
  | none =>
      let jobId := s.nextId
      let job := newJob jobId request now
      ((jobId, true),
       { s with
          jobs := setA jobId job s.jobs
          idempotencyIndex := setA request.idempotencyKey jobId s.idempotencyIndex
          nextId := s.nextId + 1 })

/-- `getJob`. -/
def getJob (s : Scheduler) (jobId : Nat) : Option ScheduledJob :=
  lookupA jobId s.jobs

/-- `cancel`: remove the job and its idempotency mapping iff it exists
and is still pending. -/
def cancel (s : Scheduler) (jobId : Nat) : Bool × Scheduler :=
  match lookupA jobId s.jobs with
  | none => (false, s)
  | some job =>
      if job.status ≠ JobStatus.pending then (false, s)
      else
        (true,
         { s with
            jobs := eraseA jobId s.jobs
            idempotencyIndex := eraseA job.idempotencyKey s.idempotencyIndex })

/-- One loop body of `processJobs` for a single job: skip non-pending and
not-yet-due jobs; otherwise await the provider and record the terminal
state.  `executedAt` records the sweep's current time. -/
def processJob (p : Provider) (now : Nat) (job : ScheduledJob) : ScheduledJob :=
  if job.status ≠ JobStatus.pending then job
  else if job.executeAt > now then job
  else
    match p job.request with
    | SendOutcome.ok result =>
        if result.status = ExecutionStatus.sent then
          { job with status := JobStatus.executed, executedAt := some now }
        else
          { job with status := JobStatus.failed,
                     error := some (result.error.getD "Unknown error") }
    | SendOutcome.thrown msg =>
        { job with status := JobStatus.failed, error := some msg }

/-- One sweep tick (`processJobs`): a no-op when no provider is set;
otherwise every entry of the job table is processed in place.  The
`try`/`catch` around each delivery is embedded in `SendOutcome.thrown`,
so one job's error never stops the iteration. -/
def processJobs (s : Scheduler) (now : Nat) : Scheduler :=
  match s.provider with
  | none => s
  | some p => { s with jobs := s.jobs.map (fun e => (e.1, processJob p now e.2)) }

/-- `clear`: empty the job table and the idempotency index. -/
def clear (s : Scheduler) : Scheduler :=
  { s with jobs := [], idempotencyIndex := [] }

end Scheduler

/-- The scheduler's externally triggerable state mutations: `schedule`,
`cancel`, `clear`, a sweep-timer firing, and `setProvider`. -/
inductive SchedOp where
  | schedule (request : ScheduleRequest) (now : Nat)
  | cancel (jobId : Nat)
  | clear
  | tick (now : Nat)
  | setProvider (p : Provider)

/-- Apply one operation to the scheduler state (return values dropped). -/
def applyOp (s : Scheduler) : SchedOp → Scheduler
  | SchedOp.schedule request now => (s.schedule request now).2
  | SchedOp.cancel jobId => (s.cancel jobId).2
  | SchedOp.clear => s.clear
  | SchedOp.tick now => s.processJobs now
  | SchedOp.setProvider p => s.setProvider p

/-- Apply a sequence of operations. -/
def applyOps (s : Scheduler) (ops : List SchedOp) : Scheduler :=
  ops.foldl applyOp s

/-- The scheduler's internal consistency invariant: both maps have
distinct keys, the idempotency index and the job table are in lock-step,
job ids are below the fresh counter, and every stored job's payload has
`confirm = true`. -/
def SchedInv (s : Scheduler) : Prop :=
  KeysDistinct s.idempotencyIndex ∧
  KeysDistinct s.jobs ∧
  (∀ e ∈ s.idempotencyIndex, ∃ je ∈ s.jobs, je.1 = e.2 ∧ je.2.idempotencyKey = e.1) ∧
  (∀ je ∈ s.jobs, (je.2.idempotencyKey, je.1) ∈ s.idempotencyIndex) ∧
  (∀ je ∈ s.jobs, je.1 < s.nextId) ∧
  (∀ je ∈ s.jobs, je.2.request.confirm = true)

instance (s : Scheduler) : Decidable (SchedInv s) := by
  unfold SchedInv KeysDistinct
  infer_instance

/-! ### Concrete states for the closed instance theorems -/

/-- A pending job, due at time 50, with idempotency key "key-1". -/
def sampleJob : ScheduledJob :=
  { id := 0
    idempotencyKey := "key-1"
    executeAt := 50
    request := { targetType := TargetType.user, targetId := "u1", message := "hello", confirm := true }
    status := JobStatus.pending
    createdAt := 0 }

/-- A second pending job, due at time 50, with idempotency key "key-2". -/
def sampleJob2 : ScheduledJob :=
  { id := 1
    idempotencyKey := "key-2"
    executeAt := 50
    request := { targetType := TargetType.user, targetId := "u2", message := "bye", confirm := true }
    status := JobStatus.pending
    createdAt := 0 }

/-- A provider that succeeds for target "u1" and throws for any other. -/
def sampleProvider : Provider := fun r =>
  if r.targetId == "u1" then SendOutcome.ok { status := ExecutionStatus.sent }
  else SendOutcome.thrown "boom"

/-- A scheduler holding one pending job, no provider. -/
def sampleScheduler : Scheduler :=
  { jobs := [(0, sampleJob)], idempotencyIndex := [("key-1", 0)], provider := none, nextId := 1 }

/-- A scheduler holding two pending jobs and `sampleProvider`. -/
def sampleScheduler2 : Scheduler :=
  { jobs := [(0, sampleJob), (1, sampleJob2)]
    idempotencyIndex := [("key-1", 0), ("key-2", 1)]
    provider := some sampleProvider
    nextId := 2 }

/-- A schedule request with idempotency key "key-1". -/
def sampleReq : ScheduleRequest :=
  { targetType := TargetType.user, targetId := "u1", message := "hello", confirm := false
    executeAt := 100, idempotencyKey := "key-1" }

/-- A schedule request with the same idempotency key but different payload. -/
def sampleReq2 : ScheduleRequest :=
  { targetType := TargetType.group, targetId := "g9", message := "other", confirm := true
    executeAt := 200, idempotencyKey := "key-1" }

/-! ## Association-list lemmas -/

section AssocLemmas

variable [DecidableEq α]

theorem lookupA_setA_self (k : α) (v : β) (l : List (α × β)) :
    lookupA k (setA k v l) = some v := by
  induction l with
  | nil => simp [setA, lookupA]
  | cons e rest ih =>
    by_cases h : e.1 = k <;> simp [setA, lookupA, h, ih]

theorem lookupA_setA_ne {k k' : α} (v : β) (l : List (α × β)) (h : k' ≠ k) :
    lookupA k' (setA k v l) = lookupA k' l := by
  induction l with
  | nil => simp [setA, lookupA, Ne.symm h]
  | cons e rest ih =>
    by_cases he : e.1 = k
    · subst he
      simp [setA, lookupA, Ne.symm h]
    · simp only [setA, if_neg he, lookupA]
      by_cases he' : e.1 = k' <;> simp [he', ih]

theorem lookupA_eraseA_ne {k k' : α} (l : List (α × β)) (h : k' ≠ k) :
    lookupA k' (eraseA k l) = lookupA k' l := by
  induction l with
  | nil => simp [eraseA]
  | cons e rest ih =>
    by_cases he : e.1 = k
    · subst he
      simp [eraseA, lookupA, Ne.symm h]
    · simp only [eraseA, if_neg he, lookupA]
      by_cases he' : e.1 = k' <;> simp [he', ih]

theorem eraseA_sublist (k : α) (l : List (α × β)) : (eraseA k l).Sublist l := by
  induction l with
  | nil => simp [eraseA]
  | cons e rest ih =>
    by_cases he : e.1 = k
    · simp only [eraseA, if_pos he]
      exact List.sublist_cons_self e rest
    · simpa [eraseA, he] using ih.cons₂ e

theorem mem_of_mem_eraseA {k : α} {l : List (α × β)} {e : α × β}
    (h : e ∈ eraseA k l) : e ∈ l :=
  (eraseA_sublist k l).mem h

theorem mem_eraseA_of_ne {k : α} {l : List (α × β)} {e : α × β}
    (hm : e ∈ l) (hne : e.1 ≠ k) : e ∈ eraseA k l := by
  induction l with
  | nil => simp at hm
  | cons x rest ih =>
    rcases List.mem_cons.mp hm with h | h
    · subst h
      simp [eraseA, hne]
    · by_cases hx : x.1 = k
      · simpa [eraseA, hx] using h
      · simpa [eraseA, hx] using Or.inr (ih h)

theorem keysDistinct_eraseA {k : α} {l : List (α × β)} (h : KeysDistinct l) :
    KeysDistinct (eraseA k l) :=
  h.sublist (eraseA_sublist k l)

theorem lookupA_eq_none_iff {k : α} {l : List (α × β)} :
    lookupA k l = none ↔ ∀ e ∈ l, e.1 ≠ k := by
  induction l with
  | nil => simp [lookupA]
  | cons e rest ih =>
    by_cases he : e.1 = k <;> simp [lookupA, he, ih]

theorem lookupA_eraseA_self {k : α} {l : List (α × β)} (h : KeysDistinct l) :
    lookupA k (eraseA k l) = none := by
  induction l with
  | nil => simp [eraseA, lookupA]
  | cons e rest ih =>
    rcases List.pairwise_cons.mp h with ⟨hhead, htail⟩
    by_cases he : e.1 = k
    · subst he
      simpa [eraseA] using lookupA_eq_none_iff.mpr (fun x hx => Ne.symm (hhead x hx))
    · simp [eraseA, he, lookupA, ih htail]

theorem mem_of_lookupA_eq_some {k : α} {v : β} {l : List (α × β)}
    (h : lookupA k l = some v) : (k, v) ∈ l := by
  induction l with
  | nil => simp [lookupA] at h
  | cons e rest ih =>
    by_cases he : e.1 = k
    · simp only [lookupA, if_pos he] at h
      obtain ⟨k', v'⟩ := e
      simp only at he
      subst he
      obtain rfl : v' = v := Option.some.inj h
      exact List.mem_cons_self _ _
    · simp only [lookupA, if_neg he] at h
      exact List.mem_cons_of_mem _ (ih h)

theorem lookupA_eq_some_of_mem {k : α} {v : β} {l : List (α × β)}
    (hd : KeysDistinct l) (hm : (k, v) ∈ l) : lookupA k l = some v := by
  induction l with
  | nil => simp at hm
  | cons e rest ih =>
    rcases List.pairwise_cons.mp hd with ⟨hhead, htail⟩
    rcases List.mem_cons.mp hm with h | h
    · subst h
      simp [lookupA]
    · have : e.1 ≠ k := hhead _ h
      simp [lookupA, this, ih htail h]

theorem setA_eq_append {k : α} (v : β) {l : List (α × β)}
    (h : ∀ e ∈ l, e.1 ≠ k) : setA k v l = l ++ [(k, v)] := by
  induction l with
  | nil => simp [setA]
  | cons e rest ih =>
    have he : e.1 ≠ k := h e (by simp)
    simp [setA, he, ih (fun x hx => h x (List.mem_cons_of_mem _ hx))]

theorem lookupA_map (k : α) (f : β → β) (l : List (α × β)) :
    lookupA k (l.map (fun e => (e.1, f e.2))) = (lookupA k l).map f := by
  induction l with
  | nil => simp [lookupA]
  | cons e rest ih =>
    by_cases he : e.1 = k <;> simp [lookupA, he, ih]

omit [DecidableEq α] in
theorem keysDistinct_map {f : β → β} {l : List (α × β)} (h : KeysDistinct l) :
    KeysDistinct (l.map (fun e => (e.1, f e.2))) := by
  unfold KeysDistinct at h ⊢
  refine (List.pairwise_map).mpr ?_
  exact h.imp (fun hab => hab)

end AssocLemmas

/-! ## RateLimiter lemmas -/

namespace RateLimiter

theorem check_fresh {rl : RateLimiter} {key : String} (now : Nat)
    (h : lookupA key rl.limits = none) :
    check rl key now =
      (⟨true, (rl.maxRequests : Int) - 1, now + rl.windowMs⟩,
       { rl with limits := setA key ⟨1, now + rl.windowMs⟩ rl.limits }) := by
  simp [check, h]

theorem check_expired {rl : RateLimiter} {key : String} {now : Nat} {e : RLEntry}
    (h : lookupA key rl.limits = some e) (hx : e.resetAt < now) :
    check rl key now =
      (⟨true, (rl.maxRequests : Int) - 1, now + rl.windowMs⟩,
       { rl with limits := setA key ⟨1, now + rl.windowMs⟩ rl.limits }) := by
  simp [check, h, hx]

theorem check_live_incr {rl : RateLimiter} {key : String} {now : Nat} {e : RLEntry}
    (h : lookupA key rl.limits = some e) (hwin : now ≤ e.resetAt)
    (hc : e.count < rl.maxRequests) :
    check rl key now =
      (⟨true, (rl.maxRequests : Int) - (e.count + 1), e.resetAt⟩,
       { rl with limits := setA key ⟨e.count + 1, e.resetAt⟩ rl.limits }) := by
  simp [check, h, Nat.not_lt.mpr hwin, Nat.not_le.mpr hc]

theorem check_live_reject {rl : RateLimiter} {key : String} {now : Nat} {e : RLEntry}
    (h : lookupA key rl.limits = some e) (hwin : now ≤ e.resetAt)
    (hc : rl.maxRequests ≤ e.count) :
    check rl key now = (⟨false, 0, e.resetAt⟩, rl) := by
  simp [check, h, Nat.not_lt.mpr hwin, hc]

theorem check_maxRequests (rl : RateLimiter) (key : String) (now : Nat) :
    (check rl key now).2.maxRequests = rl.maxRequests := by
  unfold check
  cases lookupA key rl.limits with
  | none => rfl
  | some e =>
    dsimp only
    split
    · rfl
    · split <;> rfl

theorem checkRun_maxRequests (rl : RateLimiter) (key : String) (ts : List Nat) :
    (checkRun rl key ts).2.maxRequests = rl.maxRequests := by
  induction ts generalizing rl with
  | nil => rfl
  | cons t rest ih =>
    show (checkRun (check rl key t).2 key rest).2.maxRequests = rl.maxRequests
    rw [ih, check_maxRequests]

theorem checkRun_saturated {key : String} (ts : List Nat) (rl : RateLimiter) {e : RLEntry}
    (h : lookupA key rl.limits = some e) (hc : rl.maxRequests ≤ e.count)
    (hwin : ∀ t ∈ ts, t ≤ e.resetAt) :
    checkRun rl key ts = (ts.map (fun _ => ⟨false, 0, e.resetAt⟩), rl) := by
  induction ts with
  | nil => simp [checkRun]
  | cons t rest ih =>
    have hstep := check_live_reject h (hwin t (by simp)) hc
    simp [checkRun, hstep, ih (fun t' ht' => hwin t' (by simp [ht']))]

theorem checkRun_append {key : String} (xs ys : List Nat) (rl : RateLimiter) :
    checkRun rl key (xs ++ ys) =
      ((checkRun rl key xs).1 ++ (checkRun (checkRun rl key xs).2 key ys).1,
       (checkRun (checkRun rl key xs).2 key ys).2) := by
  induction xs generalizing rl with
  | nil => simp [checkRun]
  | cons x xs ih => simp [checkRun, ih]

theorem checkRun_fill {key : String} (ts : List Nat) :
    ∀ (rl : RateLimiter) (c R : Nat),
      lookupA key rl.limits = some ⟨c, R⟩ → 1 ≤ c → c ≤ rl.maxRequests →
      (∀ t ∈ ts, t ≤ R) →
      lookupA key (checkRun rl key ts).2.limits
          = some ⟨min (c + ts.length) rl.maxRequests, R⟩ ∧
      (∀ i (hi : i < (checkRun rl key ts).1.length),
         c + i < rl.maxRequests → ((checkRun rl key ts).1[i]).allowed = true) ∧
      (∀ i (hi : i < (checkRun rl key ts).1.length),
         rl.maxRequests ≤ c + i → (checkRun rl key ts).1[i] = ⟨false, 0, R⟩) := by
  induction ts with
  | nil =>
    intro rl c R h _ hcM _
    refine ⟨?_, ?_, ?_⟩
    · simpa [checkRun, Nat.min_eq_left hcM] using h
    · intro i hi
      simp [checkRun] at hi
    · intro i hi
      simp [checkRun] at hi
  | cons t rest ih =>
    intro rl c R h hc1 hcM hwin
    by_cases hlt : c < rl.maxRequests
    · have hstep := check_live_incr h (hwin t (by simp)) hlt
      have hlook : lookupA key (setA key (⟨c + 1, R⟩ : RLEntry) rl.limits) = some ⟨c + 1, R⟩ :=
        lookupA_setA_self key _ rl.limits
      have hrec := ih { rl with limits := setA key ⟨c + 1, R⟩ rl.limits } (c + 1) R hlook
        (by omega) (by simpa using hlt) (fun t' ht' => hwin t' (by simp [ht']))
      refine ⟨?_, ?_, ?_⟩
      · have harith : c + (rest.length + 1) = (c + 1) + rest.length := by omega
        simpa [checkRun, hstep, harith] using hrec.1
      · intro i hi hlt2
        match i with
        | 0 => simp [checkRun, hstep]
        | Nat.succ j =>
          have hj : j < (checkRun { rl with limits := setA key ⟨c + 1, R⟩ rl.limits } key rest).1.length := by
            simpa [checkRun, hstep] using hi
          have harg : (c + 1) + j < RateLimiter.maxRequests
              { rl with limits := setA key ⟨c + 1, R⟩ rl.limits } := by
            show (c + 1) + j < rl.maxRequests
            simp [checkRun, hstep] at hlt2
            omega
          have := hrec.2.1 j hj harg
          simpa [checkRun, hstep] using this
      · intro i hi hge
        match i with
        | 0 =>
          exact absurd hge (by omega)
        | Nat.succ j =>
          have hj : j < (checkRun { rl with limits := setA key ⟨c + 1, R⟩ rl.limits } key rest).1.length := by
            simpa [checkRun, hstep] using hi
          have harg : RateLimiter.maxRequests
              { rl with limits := setA key ⟨c + 1, R⟩ rl.limits } ≤ (c + 1) + j := by
            show rl.maxRequests ≤ (c + 1) + j
            omega
          have := hrec.2.2 j hj harg
          simpa [checkRun, hstep] using this
    · have hge : rl.maxRequests ≤ c := Nat.not_lt.mp hlt
      have hstep := check_live_reject h (hwin t (by simp)) hge
      have hrec := ih rl c R h hc1 hcM (fun t' ht' => hwin t' (by simp [ht']))
      refine ⟨?_, ?_, ?_⟩
      · have harith : min (c + (rest.length + 1)) rl.maxRequests
            = min (c + rest.length) rl.maxRequests := by omega
        simpa [checkRun, hstep, harith] using hrec.1
      · intro i hi hlt2
        match i with
        | 0 => exact absurd hlt2 (by omega)
        | Nat.succ j =>
          have hj : j < (checkRun rl key rest).1.length := by
            simpa [checkRun, hstep] using hi
          have := hrec.2.1 j hj (by omega)
          simpa [checkRun, hstep] using this
      · intro i hi hge2
        match i with
        | 0 =>
          simp [checkRun, hstep]
        | Nat.succ j =>
          have hj : j < (checkRun rl key rest).1.length := by
            simpa [checkRun, hstep] using hi
          have := hrec.2.2 j hj (by omega)
          simpa [checkRun, hstep] using this

end RateLimiter

/-! ## Claim C1 -/

namespace RateLimiter

/-- Claim C1: starting a fresh window for a key (no live entry) and
checking any number of further times inside that window, the first
`maxRequests` calls are allowed, every later call returns
`allowed = false, remaining = 0` with the window's original `resetAt`,
the rejected calls mutate nothing (the state after the whole run equals
the state after the first `maxRequests` calls), and the key's entry ends
at count `maxRequests` with `resetAt` not extended. -/
theorem c1_check_saturation (rl0 : RateLimiter) (key : String) (t0 : Nat) (ts : List Nat)
    (hnone : lookupA key rl0.limits = none)
    (hmax : 1 ≤ rl0.maxRequests)
    (hwin : ∀ t ∈ ts, t ≤ t0 + rl0.windowMs) :
    (∀ i (hi : i < (checkRun rl0 key (t0 :: ts)).1.length), i < rl0.maxRequests →
        ((checkRun rl0 key (t0 :: ts)).1[i]).allowed = true) ∧
    (∀ i (hi : i < (checkRun rl0 key (t0 :: ts)).1.length), rl0.maxRequests ≤ i →
        (checkRun rl0 key (t0 :: ts)).1[i]
          = ⟨false, 0, t0 + rl0.windowMs⟩) ∧
    lookupA key (checkRun rl0 key (t0 :: ts)).2.limits
      = some ⟨min (ts.length + 1) rl0.maxRequests, t0 + rl0.windowMs⟩ ∧
    (checkRun rl0 key (t0 :: ts)).2
      = (checkRun rl0 key ((t0 :: ts).take rl0.maxRequests)).2 := by
  have hstep := check_fresh t0 hnone
  have hlook : lookupA key
      (RateLimiter.limits { rl0 with limits := setA key ⟨1, t0 + rl0.windowMs⟩ rl0.limits })
      = some ⟨1, t0 + rl0.windowMs⟩ :=
    lookupA_setA_self key _ rl0.limits
  have hfill := checkRun_fill ts
    { rl0 with limits := setA key ⟨1, t0 + rl0.windowMs⟩ rl0.limits } 1 (t0 + rl0.windowMs)
    hlook (le_refl 1) (by show 1 ≤ rl0.maxRequests; exact hmax) hwin
  refine ⟨?_, ?_, ?_, ?_⟩
  · intro i hi hiM
    match i with
    | 0 => simp [checkRun, hstep]
    | Nat.succ j =>
      have hj : j < (checkRun { rl0 with limits := setA key ⟨1, t0 + rl0.windowMs⟩ rl0.limits }
          key ts).1.length := by
        simpa [checkRun, hstep] using hi
      have harg : 1 + j < RateLimiter.maxRequests
          { rl0 with limits := setA key ⟨1, t0 + rl0.windowMs⟩ rl0.limits } := by
        show 1 + j < rl0.maxRequests
        omega
      have := hfill.2.1 j hj harg
      simpa [checkRun, hstep] using this
  · intro i hi hiM
    match i with
    | 0 => exact absurd hiM (by omega)
    | Nat.succ j =>
      have hj : j < (checkRun { rl0 with limits := setA key ⟨1, t0 + rl0.windowMs⟩ rl0.limits }
          key ts).1.length := by
        simpa [checkRun, hstep] using hi
      have harg : RateLimiter.maxRequests
          { rl0 with limits := setA key ⟨1, t0 + rl0.windowMs⟩ rl0.limits } ≤ 1 + j := by
        show rl0.maxRequests ≤ 1 + j
        omega
      have := hfill.2.2 j hj harg
      simpa [checkRun, hstep] using this
  · have harith : 1 + ts.length = ts.length + 1 := by omega
    simpa [checkRun, hstep, harith] using hfill.1
  · by_cases hlen : (t0 :: ts).length ≤ rl0.maxRequests
    · rw [List.take_of_length_le hlen]
    · have hMl : rl0.maxRequests ≤ ts.length := by
        simp [List.length_cons] at hlen
        omega
      have hMsucc : rl0.maxRequests = (rl0.maxRequests - 1) + 1 := by omega
      have htake : (t0 :: ts).take rl0.maxRequests
          = t0 :: ts.take (rl0.maxRequests - 1) := by
        rw [hMsucc]
        rfl
      have hwintake : ∀ t ∈ ts.take (rl0.maxRequests - 1), t ≤ t0 + rl0.windowMs :=
        fun t ht => hwin t (List.take_subset _ _ ht)
      have hfillA := checkRun_fill (ts.take (rl0.maxRequests - 1))
        { rl0 with limits := setA key ⟨1, t0 + rl0.windowMs⟩ rl0.limits } 1 (t0 + rl0.windowMs)
        hlook (le_refl 1) (by show 1 ≤ rl0.maxRequests; exact hmax) hwintake
      have hlenA : (ts.take (rl0.maxRequests - 1)).length = rl0.maxRequests - 1 := by
        simp [List.length_take]
        omega
      have hentryA : lookupA key
          (checkRun { rl0 with limits := setA key ⟨1, t0 + rl0.windowMs⟩ rl0.limits }
            key (ts.take (rl0.maxRequests - 1))).2.limits
          = some ⟨rl0.maxRequests, t0 + rl0.windowMs⟩ := by
        have := hfillA.1
        rw [hlenA] at this
        have harith : min (1 + (rl0.maxRequests - 1)) rl0.maxRequests = rl0.maxRequests := by
          omega
        simpa [harith] using this
      have hwindrop : ∀ t ∈ (t0 :: ts).drop rl0.maxRequests, t ≤ t0 + rl0.windowMs := by
        intro t ht
        have : t ∈ t0 :: ts := List.drop_subset _ _ ht
        rcases List.mem_cons.mp this with h | h
        · subst h
          exact Nat.le_add_right _ _
        · exact hwin t h
      have hMsA : (checkRun { rl0 with limits := setA key ⟨1, t0 + rl0.windowMs⟩ rl0.limits }
          key (ts.take (rl0.maxRequests - 1))).2.maxRequests = rl0.maxRequests :=
        checkRun_maxRequests _ key _
      have hsat := checkRun_saturated ((t0 :: ts).drop rl0.maxRequests)
        (checkRun { rl0 with limits := setA key ⟨1, t0 + rl0.windowMs⟩ rl0.limits }
          key (ts.take (rl0.maxRequests - 1))).2
        hentryA (le_of_eq hMsA) hwindrop
      have hA2 : (checkRun rl0 key ((t0 :: ts).take rl0.maxRequests)).2
          = (checkRun { rl0 with limits := setA key ⟨1, t0 + rl0.windowMs⟩ rl0.limits }
              key (ts.take (rl0.maxRequests - 1))).2 := by
        rw [htake]
        simp [checkRun, hstep]
      have hsplit := @checkRun_append key ((t0 :: ts).take rl0.maxRequests)
        ((t0 :: ts).drop rl0.maxRequests) rl0
      rw [List.take_append_drop] at hsplit
      calc (checkRun rl0 key (t0 :: ts)).2
          = (checkRun (checkRun rl0 key ((t0 :: ts).take rl0.maxRequests)).2 key
              ((t0 :: ts).drop rl0.maxRequests)).2 := by rw [hsplit]
        _ = (checkRun (checkRun { rl0 with limits := setA key ⟨1, t0 + rl0.windowMs⟩ rl0.limits }
              key (ts.take (rl0.maxRequests - 1))).2 key
              ((t0 :: ts).drop rl0.maxRequests)).2 := by rw [hA2]
        _ = (checkRun { rl0 with limits := setA key ⟨1, t0 + rl0.windowMs⟩ rl0.limits }
              key (ts.take (rl0.maxRequests - 1))).2 := by rw [hsat]
        _ = (checkRun rl0 key ((t0 :: ts).take rl0.maxRequests)).2 := hA2.symm

/-- Witness for C1: maxRequests = 2, windowMs = 100, window opened at
time 0, further calls at 10, 20, 30 (all inside the window). -/
theorem c1_check_saturation_witness :
    lookupA "k" (RateLimiter.mk [] 2 100).limits = none ∧
    1 ≤ (RateLimiter.mk [] 2 100).maxRequests ∧
    (∀ t ∈ [10, 20, 30], t ≤ 0 + (RateLimiter.mk [] 2 100).windowMs) ∧
    ((∀ i (hi : i < (checkRun (RateLimiter.mk [] 2 100) "k" (0 :: [10, 20, 30])).1.length),
        i < (RateLimiter.mk [] 2 100).maxRequests →
        ((checkRun (RateLimiter.mk [] 2 100) "k" (0 :: [10, 20, 30])).1[i]).allowed = true) ∧
     (∀ i (hi : i < (checkRun (RateLimiter.mk [] 2 100) "k" (0 :: [10, 20, 30])).1.length),
        (RateLimiter.mk [] 2 100).maxRequests ≤ i →
        (checkRun (RateLimiter.mk [] 2 100) "k" (0 :: [10, 20, 30])).1[i]
          = ⟨false, 0, 0 + (RateLimiter.mk [] 2 100).windowMs⟩) ∧
     lookupA "k" (checkRun (RateLimiter.mk [] 2 100) "k" (0 :: [10, 20, 30])).2.limits
        = some ⟨min ([10, 20, 30].length + 1) (RateLimiter.mk [] 2 100).maxRequests,
                0 + (RateLimiter.mk [] 2 100).windowMs⟩ ∧
     (checkRun (RateLimiter.mk [] 2 100) "k" (0 :: [10, 20, 30])).2
        = (checkRun (RateLimiter.mk [] 2 100) "k"
            ((0 :: [10, 20, 30]).take (RateLimiter.mk [] 2 100).maxRequests)).2) :=
  ⟨by decide, by decide, by decide,
   c1_check_saturation (RateLimiter.mk [] 2 100) "k" 0 [10, 20, 30]
     (by decide) (by decide) (by decide)⟩

/-! ## Claim C2 -/

/-- Claim C2 counterexample: with maxRequests = 2, windowMs = 100 and the
window opened at time 0 (entry resetAt = 100), the check at time
100 = firstCallTime + windowMs does not start a fresh window: it does
not return `remaining = maxRequests - 1 = 1`, and it does not install an
entry with count 1 and resetAt = 100 + 100; the code requires the
current time to be strictly past `resetAt`. -/
theorem c2_boundary_counterexample :
    (check (check (RateLimiter.mk [] 2 100) "k" 0).2 "k" 100).1
        ≠ (⟨true, 1, 200⟩ : RateLimitResult) ∧
    lookupA "k" (check (check (RateLimiter.mk [] 2 100) "k" 0).2 "k" 100).2.limits
        ≠ some (⟨1, 200⟩ : RLEntry) := by
  decide

/-- Claim C2 (amended): for every key whose entry's `resetAt`
(= the window's first call time + windowMs) is strictly less than the
current time, a fresh `check` returns `allowed = true` with
`remaining = maxRequests - 1` and installs a new entry with count 1 and
`resetAt = now + windowMs`, regardless of the expired entry's count. -/
theorem c2_fresh_window_after_expiry (rl : RateLimiter) (key : String) (now : Nat)
    (e : RLEntry) (h : lookupA key rl.limits = some e) (hx : e.resetAt < now) :
    check rl key now =
      (⟨true, (rl.maxRequests : Int) - 1, now + rl.windowMs⟩,
       { rl with limits := setA key ⟨1, now + rl.windowMs⟩ rl.limits }) :=
  check_expired h hx

/-- Witness for the amended C2: an expired entry with count 5 at
resetAt = 100, checked at time 101. -/
theorem c2_fresh_window_after_expiry_witness :
    lookupA "k" (RateLimiter.mk [("k", ⟨5, 100⟩)] 2 100).limits = some ⟨5, 100⟩ ∧
    (⟨5, 100⟩ : RLEntry).resetAt < 101 ∧
    check (RateLimiter.mk [("k", ⟨5, 100⟩)] 2 100) "k" 101 =
      (⟨true, 1, 201⟩, RateLimiter.mk [("k", ⟨1, 201⟩)] 2 100) :=
  ⟨by decide, by decide,
   c2_fresh_window_after_expiry (RateLimiter.mk [("k", ⟨5, 100⟩)] 2 100) "k" 101
     ⟨5, 100⟩ (by decide) (by decide)⟩

/-! ## Claim C3 -/

/-- Claim C3: `peek` never mutates the limiter's state, so any number of
interleaved peeks leave a later `check` unchanged; and when the key has
no entry or an expired one, `peek` reports a hypothetical fresh window
(`allowed = true`, `remaining = maxRequests`) without creating an entry. -/
theorem c3_peek_pure (rl : RateLimiter) (key : String) (now : Nat) :
    (peek rl key now).2 = rl ∧
    (∀ key2 now2, check (peek rl key now).2 key2 now2 = check rl key2 now2) ∧
    ((match lookupA key rl.limits with
      | none => True
      | some e => e.resetAt < now) →
      (peek rl key now).1 = ⟨true, (rl.maxRequests : Int), now + rl.windowMs⟩) := by
  have hpure : (peek rl key now).2 = rl := by
    unfold peek
    cases lookupA key rl.limits with
    | none => rfl
    | some e =>
      dsimp only
      split <;> rfl
  refine ⟨hpure, fun key2 now2 => by rw [hpure], ?_⟩
  intro hexp
  unfold peek
  cases h : lookupA key rl.limits with
  | none => rfl
  | some e =>
    rw [h] at hexp
    have hlt : e.resetAt < now := hexp
    dsimp only
    rw [if_pos hlt]

/-- Witness for C3: a saturated live entry is untouched by `peek`, and an
expired entry is reported as a fresh window. -/
theorem c3_peek_pure_witness :
    (peek (RateLimiter.mk [("k", ⟨2, 100⟩)] 2 100) "k" 200).2
        = RateLimiter.mk [("k", ⟨2, 100⟩)] 2 100 ∧
    (peek (RateLimiter.mk [("k", ⟨2, 100⟩)] 2 100) "k" 200).1 = ⟨true, 2, 300⟩ :=
  ⟨(c3_peek_pure (RateLimiter.mk [("k", ⟨2, 100⟩)] 2 100) "k" 200).1,
   (c3_peek_pure (RateLimiter.mk [("k", ⟨2, 100⟩)] 2 100) "k" 200).2.2
     (show (100 : Nat) < 200 by decide)⟩

end RateLimiter

/-! ## Scheduler lemmas -/

theorem mem_unique_of_keysDistinct {l : List (α × β)} [DecidableEq α] (h : KeysDistinct l)
    {k : α} {a b : β} (ha : (k, a) ∈ l) (hb : (k, b) ∈ l) : a = b := by
  have h1 := lookupA_eq_some_of_mem h ha
  have h2 := lookupA_eq_some_of_mem h hb
  rw [h1] at h2
  exact Option.some.inj h2

namespace Scheduler

theorem schedule_hit {s : Scheduler} {req : ScheduleRequest} {id : Nat}
    (h : lookupA req.idempotencyKey s.idempotencyIndex = some id) (now : Nat) :
    s.schedule req now = ((id, false), s) := by
  simp [schedule, h]

theorem schedule_miss {s : Scheduler} {req : ScheduleRequest}
    (h : lookupA req.idempotencyKey s.idempotencyIndex = none) (now : Nat) :
    s.schedule req now =
      ((s.nextId, true),
       { s with
          jobs := setA s.nextId (newJob s.nextId req now) s.jobs
          idempotencyIndex := setA req.idempotencyKey s.nextId s.idempotencyIndex
          nextId := s.nextId + 1 }) := by
  simp [schedule, h]

theorem processJobs_noProvider {s : Scheduler} (now : Nat)
    (h : s.provider = none) : s.processJobs now = s := by
  unfold processJobs
  rw [h]

theorem cancel_miss {s : Scheduler} {jobId : Nat}
    (h : lookupA jobId s.jobs = none) :
    s.cancel jobId = (false, s) := by
  simp [cancel, h]

theorem cancel_terminal {s : Scheduler} {jobId : Nat} {job : ScheduledJob}
    (h : lookupA jobId s.jobs = some job) (hst : job.status ≠ JobStatus.pending) :
    s.cancel jobId = (false, s) := by
  simp [cancel, h, hst]

theorem cancel_pending {s : Scheduler} {jobId : Nat} {job : ScheduledJob}
    (h : lookupA jobId s.jobs = some job) (hst : job.status = JobStatus.pending) :
    s.cancel jobId =
      (true,
       { s with
          jobs := eraseA jobId s.jobs
          idempotencyIndex := eraseA job.idempotencyKey s.idempotencyIndex }) := by
  simp [cancel, h, hst]

theorem jobs_ne_nextId {s : Scheduler} (hinv : SchedInv s) :
    ∀ e ∈ s.jobs, e.1 ≠ s.nextId := by
  intro e he
  have := hinv.2.2.2.2.1 e he
  omega

theorem jobs_key_ne_of_unmapped {s : Scheduler} (hinv : SchedInv s) {k : String}
    (h : lookupA k s.idempotencyIndex = none) :
    ∀ e ∈ s.jobs, e.2.idempotencyKey ≠ k := by
  intro e he hk
  have hmem := hinv.2.2.2.1 e he
  rw [hk] at hmem
  exact lookupA_eq_none_iff.mp h _ hmem rfl

/-! ## Claim C4 -/

/-- Claim C4: scheduling twice with the same idempotency key (payloads
may differ) returns the same job id, `isNew = true` then
`isNew = false`; the second call leaves the whole scheduler state
untouched, the stored job is the first call's job (first writer wins),
and the job table holds exactly one job for that key. -/
theorem c4_schedule_idempotent (s : Scheduler) (req req2 : ScheduleRequest)
    (now now2 : Nat) (hinv : SchedInv s)
    (hnone : lookupA req.idempotencyKey s.idempotencyIndex = none)
    (hkey : req2.idempotencyKey = req.idempotencyKey) :
    (s.schedule req now).1.2 = true ∧
    ((s.schedule req now).2.schedule req2 now2).1.2 = false ∧
    ((s.schedule req now).2.schedule req2 now2).1.1 = (s.schedule req now).1.1 ∧
    ((s.schedule req now).2.schedule req2 now2).2 = (s.schedule req now).2 ∧
    (s.schedule req now).2.getJob (s.schedule req now).1.1
        = some (newJob s.nextId req now) ∧
    ((s.schedule req now).2.jobs.countP
        (fun je => je.2.idempotencyKey == req.idempotencyKey)) = 1 := by
  have h1 := schedule_miss hnone now
  have hlook2 : lookupA req2.idempotencyKey
      (s.schedule req now).2.idempotencyIndex = some s.nextId := by
    rw [h1, hkey]
    exact lookupA_setA_self _ _ _
  have h2 := schedule_hit hlook2 now2
  refine ⟨by rw [h1], by rw [h2], by rw [h2, h1], by rw [h2], ?_, ?_⟩
  · rw [h1]
    exact lookupA_setA_self _ _ _
  · rw [h1]
    have happ : setA s.nextId (newJob s.nextId req now) s.jobs
        = s.jobs ++ [(s.nextId, newJob s.nextId req now)] :=
      setA_eq_append _ (jobs_ne_nextId hinv)
    have hzero : s.jobs.countP (fun je => je.2.idempotencyKey == req.idempotencyKey) = 0 := by
      refine List.countP_eq_zero.mpr ?_
      intro e he
      simpa using jobs_key_ne_of_unmapped hinv hnone e he
    show (setA s.nextId (newJob s.nextId req now) s.jobs).countP
        (fun je => je.2.idempotencyKey == req.idempotencyKey) = 1
    rw [happ, List.countP_append, hzero]
    simp [List.countP_cons, newJob]

/-! ## Claim C5 -/

/-- Claim C5: `cancel(jobId)` returns true iff a job with that id exists
and is pending; a false return leaves the whole state unchanged; a true
return removes the job (a later `getJob` is absent) and its idempotency
index entry. -/
theorem c5_cancel_iff (s : Scheduler) (jobId : Nat) (hinv : SchedInv s) :
    ((s.cancel jobId).1 = true ↔
      ∃ job, s.getJob jobId = some job ∧ job.status = JobStatus.pending) ∧
    ((s.cancel jobId).1 = false → (s.cancel jobId).2 = s) ∧
    (∀ job, s.getJob jobId = some job → job.status = JobStatus.pending →
       (s.cancel jobId).2.getJob jobId = none ∧
       lookupA job.idempotencyKey (s.cancel jobId).2.idempotencyIndex = none) := by
  cases h : lookupA jobId s.jobs with
  | none =>
    have hc := cancel_miss h
    refine ⟨?_, ?_, ?_⟩
    · rw [hc]
      simp [getJob, h]
    · intro _
      rw [hc]
    · intro job hjob
      rw [getJob, h] at hjob
      exact absurd hjob (by simp)
  | some job =>
    by_cases hst : job.status = JobStatus.pending
    · have hc := cancel_pending h hst
      refine ⟨?_, ?_, ?_⟩
      · rw [hc]
        constructor
        · intro _
          exact ⟨job, by rw [getJob, h], hst⟩
        · intro _
          rfl
      · intro hfalse
        rw [hc] at hfalse
        exact absurd hfalse (by simp)
      · intro job2 hjob2 _
        rw [getJob, h] at hjob2
        obtain rfl : job = job2 := Option.some.inj hjob2
        constructor
        · rw [hc]
          exact lookupA_eraseA_self hinv.2.1
        · rw [hc]
          exact lookupA_eraseA_self hinv.1
    · have hc := cancel_terminal h hst
      refine ⟨?_, ?_, ?_⟩
      · rw [hc]
        constructor
        · intro hft
          exact absurd hft (by simp)
        · rintro ⟨job2, hjob2, hpend2⟩
          rw [getJob, h] at hjob2
          obtain rfl : job = job2 := Option.some.inj hjob2
          exact absurd hpend2 hst
      · intro _
        rw [hc]
      · intro job2 hjob2 hpend2
        rw [getJob, h] at hjob2
        obtain rfl : job = job2 := Option.some.inj hjob2
        exact absurd hpend2 hst

/-! ## Claim C8 -/

/-- Claim C8: a sweep tick with no provider installed is a no-op on the
whole scheduler state: no job status, `executedAt`, or `error` changes,
and the job table and idempotency index are untouched. -/
theorem c8_tick_without_provider (s : Scheduler) (now : Nat)
    (h : s.provider = none) : s.processJobs now = s :=
  processJobs_noProvider now h

/-! ## Claim C10 -/

/-- Claim C10: after successfully cancelling a pending job, scheduling
again with the same idempotency key is treated as brand new: `isNew =
true`, a freshly allocated id different from the cancelled one, and a
new pending job carrying the new call's payload. -/
theorem c10_cancel_frees_key (s : Scheduler) (jobId : Nat) (job : ScheduledJob)
    (req : ScheduleRequest) (now : Nat) (hinv : SchedInv s)
    (hjob : s.getJob jobId = some job) (hpend : job.status = JobStatus.pending)
    (hkey : req.idempotencyKey = job.idempotencyKey) :
    ((s.cancel jobId).2.schedule req now).1.2 = true ∧
    ((s.cancel jobId).2.schedule req now).1.1 ≠ jobId ∧
    ((s.cancel jobId).2.schedule req now).2.getJob
        ((s.cancel jobId).2.schedule req now).1.1
      = some (newJob (s.cancel jobId).2.nextId req now) := by
  rw [getJob] at hjob
  have hc := cancel_pending hjob hpend
  have hfree : lookupA req.idempotencyKey (s.cancel jobId).2.idempotencyIndex = none := by
    rw [hc, hkey]
    exact lookupA_eraseA_self hinv.1
  have hsched := schedule_miss hfree now
  have hid : (s.cancel jobId).2.nextId = s.nextId := by rw [hc]
  refine ⟨by rw [hsched], ?_, ?_⟩
  · rw [hsched]
    have := hinv.2.2.2.2.1 _ (mem_of_lookupA_eq_some hjob)
    simp only [hid]
    omega
  · rw [hsched]
    exact lookupA_setA_self _ _ _

theorem processJob_not_pending {p : Provider} {now : Nat} {job : ScheduledJob}
    (h : job.status ≠ JobStatus.pending) : processJob p now job = job := by
  simp [processJob, h]

theorem processJob_not_due {p : Provider} {now : Nat} {job : ScheduledJob}
    (h : job.status = JobStatus.pending) (hdue : now < job.executeAt) :
    processJob p now job = job := by
  simp [processJob, h, hdue]

theorem processJob_sent {p : Provider} {now : Nat} {job : ScheduledJob}
    {result : ExecutionResult}
    (h : job.status = JobStatus.pending) (hdue : job.executeAt ≤ now)
    (hr : p job.request = SendOutcome.ok result)
    (hs : result.status = ExecutionStatus.sent) :
    processJob p now job
      = { job with status := JobStatus.executed, executedAt := some now } := by
  simp [processJob, h, Nat.not_lt.mpr hdue, hr, hs]

theorem processJob_sendFailed {p : Provider} {now : Nat} {job : ScheduledJob}
    {result : ExecutionResult}
    (h : job.status = JobStatus.pending) (hdue : job.executeAt ≤ now)
    (hr : p job.request = SendOutcome.ok result)
    (hs : result.status ≠ ExecutionStatus.sent) :
    processJob p now job
      = { job with status := JobStatus.failed,
                   error := some (result.error.getD "Unknown error") } := by
  simp [processJob, h, Nat.not_lt.mpr hdue, hr, hs]

theorem processJob_thrown {p : Provider} {now : Nat} {job : ScheduledJob} {msg : String}
    (h : job.status = JobStatus.pending) (hdue : job.executeAt ≤ now)
    (hr : p job.request = SendOutcome.thrown msg) :
    processJob p now job
      = { job with status := JobStatus.failed, error := some msg } := by
  simp [processJob, h, Nat.not_lt.mpr hdue, hr]

theorem processJob_preserves (p : Provider) (now : Nat) (job : ScheduledJob) :
    (processJob p now job).id = job.id ∧
    (processJob p now job).idempotencyKey = job.idempotencyKey ∧
    (processJob p now job).request = job.request ∧
    (processJob p now job).executeAt = job.executeAt := by
  unfold processJob
  split
  · exact ⟨rfl, rfl, rfl, rfl⟩
  · split
    · exact ⟨rfl, rfl, rfl, rfl⟩
    · cases p job.request with
      | ok result =>
        dsimp only
        split
        · exact ⟨rfl, rfl, rfl, rfl⟩
        · exact ⟨rfl, rfl, rfl, rfl⟩
      | thrown msg => exact ⟨rfl, rfl, rfl, rfl⟩

theorem processJob_status (p : Provider) (now : Nat) (job : ScheduledJob) :
    (processJob p now job).status = job.status ∧ processJob p now job = job ∨
    job.status = JobStatus.pending ∧
      ((processJob p now job).status = JobStatus.executed ∨
       (processJob p now job).status = JobStatus.failed) := by
  by_cases h : job.status = JobStatus.pending
  · by_cases hdue : job.executeAt > now
    · exact Or.inl (by simp [processJob_not_due h hdue])
    · have hdue' : job.executeAt ≤ now := Nat.not_lt.mp hdue
      cases hr : p job.request with
      | ok result =>
        by_cases hs : result.status = ExecutionStatus.sent
        · exact Or.inr ⟨h, Or.inl (by simp [processJob_sent h hdue' hr hs])⟩
        · exact Or.inr ⟨h, Or.inr (by simp [processJob_sendFailed h hdue' hr hs])⟩
      | thrown msg =>
        exact Or.inr ⟨h, Or.inr (by simp [processJob_thrown h hdue' hr])⟩
  · exact Or.inl (by simp [processJob_not_pending h])

theorem getJob_processJobs {s : Scheduler} {p : Provider} (hp : s.provider = some p)
    (now : Nat) (jobId : Nat) :
    (s.processJobs now).getJob jobId = (s.getJob jobId).map (processJob p now) := by
  unfold processJobs
  rw [hp]
  exact lookupA_map jobId (processJob p now) s.jobs

/-! ## Claim C7 -/

/-- Claim C7: on a sweep tick with the provider set, every pending job
that is due (`executeAt ≤ now`) is dispatched with its stored payload
(whose `confirm` flag is true): a `sent` result marks it executed with
`executedAt` recorded, any other result or a thrown error marks it
failed with the error recorded; pending jobs not yet due are left
untouched.  Each job's outcome depends only on that job, so one job's
thrown error never prevents the rest of the tick's due jobs from being
processed. -/
theorem c7_tick_processes_due_jobs (s : Scheduler) (p : Provider) (now : Nat)
    (hp : s.provider = some p) (hinv : SchedInv s) :
    ∀ jobId job, s.getJob jobId = some job →
      job.request.confirm = true ∧
      (job.status = JobStatus.pending → job.executeAt ≤ now →
        (∀ result, p job.request = SendOutcome.ok result →
          (result.status = ExecutionStatus.sent →
            (s.processJobs now).getJob jobId
              = some { job with status := JobStatus.executed, executedAt := some now }) ∧
          (result.status ≠ ExecutionStatus.sent →
            (s.processJobs now).getJob jobId
              = some { job with status := JobStatus.failed,
                                error := some (result.error.getD "Unknown error") })) ∧
        (∀ msg, p job.request = SendOutcome.thrown msg →
          (s.processJobs now).getJob jobId
            = some { job with status := JobStatus.failed, error := some msg })) ∧
      (job.status = JobStatus.pending → now < job.executeAt →
        (s.processJobs now).getJob jobId = some job) := by
  intro jobId job hjob
  have hmap := getJob_processJobs hp now jobId
  rw [hjob] at hmap
  refine ⟨?_, ?_, ?_⟩
  · exact hinv.2.2.2.2.2 _ (mem_of_lookupA_eq_some hjob)
  · intro hpend hdue
    refine ⟨?_, ?_⟩
    · intro result hr
      constructor
      · intro hs
        rw [hmap]
        simp [processJob_sent hpend hdue hr hs]
      · intro hs
        rw [hmap]
        simp [processJob_sendFailed hpend hdue hr hs]
    · intro msg hr
      rw [hmap]
      simp [processJob_thrown hpend hdue hr]
  · intro hpend hdue
    rw [hmap]
    simp [processJob_not_due hpend hdue]

end Scheduler

/-! ## Invariant preservation -/

theorem schedInv_init : SchedInv Scheduler.init := by
  refine ⟨?_, ?_, ?_, ?_, ?_, ?_⟩ <;> simp [Scheduler.init, KeysDistinct]

theorem schedInv_schedule {s : Scheduler} (hinv : SchedInv s)
    (req : ScheduleRequest) (now : Nat) : SchedInv (s.schedule req now).2 := by
  obtain ⟨hidx, hjobs, hfwd, hbwd, hfresh, hconfirm⟩ := hinv
  cases hl : lookupA req.idempotencyKey s.idempotencyIndex with
  | some id =>
    rw [Scheduler.schedule_hit hl now]
    exact ⟨hidx, hjobs, hfwd, hbwd, hfresh, hconfirm⟩
  | none =>
    rw [Scheduler.schedule_miss hl now]
    have hkeyfree : ∀ e ∈ s.idempotencyIndex, e.1 ≠ req.idempotencyKey :=
      lookupA_eq_none_iff.mp hl
    have hidfree : ∀ e ∈ s.jobs, e.1 ≠ s.nextId :=
      Scheduler.jobs_ne_nextId ⟨hidx, hjobs, hfwd, hbwd, hfresh, hconfirm⟩
    have happI : setA req.idempotencyKey s.nextId s.idempotencyIndex
        = s.idempotencyIndex ++ [(req.idempotencyKey, s.nextId)] :=
      setA_eq_append _ hkeyfree
    have happJ : setA s.nextId (Scheduler.newJob s.nextId req now) s.jobs
        = s.jobs ++ [(s.nextId, Scheduler.newJob s.nextId req now)] :=
      setA_eq_append _ hidfree
    refine ⟨?_, ?_, ?_, ?_, ?_, ?_⟩
    · show KeysDistinct (setA req.idempotencyKey s.nextId s.idempotencyIndex)
      rw [happI]
      unfold KeysDistinct
      rw [List.pairwise_append]
      exact ⟨hidx, by simp, fun a ha b hb => by
        simp only [List.mem_singleton] at hb
        subst hb
        exact hkeyfree a ha⟩
    · show KeysDistinct (setA s.nextId (Scheduler.newJob s.nextId req now) s.jobs)
      rw [happJ]
      unfold KeysDistinct
      rw [List.pairwise_append]
      exact ⟨hjobs, by simp, fun a ha b hb => by
        simp only [List.mem_singleton] at hb
        subst hb
        exact hidfree a ha⟩
    · intro e he
      show ∃ je ∈ setA s.nextId (Scheduler.newJob s.nextId req now) s.jobs,
        je.1 = e.2 ∧ je.2.idempotencyKey = e.1
      rw [happJ]
      rw [happI] at he
      rcases List.mem_append.mp he with he | he
      · obtain ⟨je, hje, h1, h2⟩ := hfwd e he
        exact ⟨je, List.mem_append_left _ hje, h1, h2⟩
      · simp only [List.mem_singleton] at he
        subst he
        refine ⟨(s.nextId, Scheduler.newJob s.nextId req now),
          List.mem_append_right _ (by simp), rfl, rfl⟩
    · intro je hje
      show (je.2.idempotencyKey, je.1) ∈ setA req.idempotencyKey s.nextId s.idempotencyIndex
      rw [happI]
      rw [happJ] at hje
      rcases List.mem_append.mp hje with hje | hje
      · exact List.mem_append_left _ (hbwd je hje)
      · simp only [List.mem_singleton] at hje
        subst hje
        exact List.mem_append_right _ (by simp [Scheduler.newJob])
    · intro je hje
      show je.1 < s.nextId + 1
      rw [happJ] at hje
      rcases List.mem_append.mp hje with hje | hje
      · have := hfresh je hje
        omega
      · simp only [List.mem_singleton] at hje
        subst hje
        omega
    · intro je hje
      rw [happJ] at hje
      rcases List.mem_append.mp hje with hje | hje
      · exact hconfirm je hje
      · simp only [List.mem_singleton] at hje
        subst hje
        rfl

theorem schedInv_cancel {s : Scheduler} (hinv : SchedInv s) (jobId : Nat) :
    SchedInv (s.cancel jobId).2 := by
  obtain ⟨hidx, hjobs, hfwd, hbwd, hfresh, hconfirm⟩ := hinv
  cases hl : lookupA jobId s.jobs with
  | none =>
    rw [Scheduler.cancel_miss hl]
    exact ⟨hidx, hjobs, hfwd, hbwd, hfresh, hconfirm⟩
  | some job =>
    by_cases hst : job.status = JobStatus.pending
    · rw [Scheduler.cancel_pending hl hst]
      have hjobmem : (jobId, job) ∈ s.jobs := mem_of_lookupA_eq_some hl
      have hjobidx : (job.idempotencyKey, jobId) ∈ s.idempotencyIndex := hbwd _ hjobmem
      refine ⟨keysDistinct_eraseA hidx, keysDistinct_eraseA hjobs, ?_, ?_, ?_, ?_⟩
      · intro e he
        have heI : e ∈ s.idempotencyIndex := mem_of_mem_eraseA he
        obtain ⟨je, hje, h1, h2⟩ := hfwd e heI
        have hne : je.1 ≠ jobId := by
          intro hid
          have : lookupA jobId s.jobs = some je.2 := by
            rw [← hid]
            exact lookupA_eq_some_of_mem hjobs (by
              obtain ⟨a, b⟩ := je
              exact hje)
          rw [hl] at this
          obtain rfl : job = je.2 := Option.some.inj this
          have hkey : e.1 = je.2.idempotencyKey := h2.symm
          have hnone : lookupA je.2.idempotencyKey
              (eraseA je.2.idempotencyKey s.idempotencyIndex) = none :=
            lookupA_eraseA_self hidx
          exact lookupA_eq_none_iff.mp hnone e he hkey
        exact ⟨je, mem_eraseA_of_ne hje hne, h1, h2⟩
      · intro je hje
        have hjeJ : je ∈ s.jobs := mem_of_mem_eraseA hje
        have hmemI := hbwd je hjeJ
        have hne : je.2.idempotencyKey ≠ job.idempotencyKey := by
          intro hkey
          have h12 : (je.2.idempotencyKey, jobId) ∈ s.idempotencyIndex := by
            rw [hkey]
            exact hjobidx
          have heq : je.1 = jobId :=
            (mem_unique_of_keysDistinct hidx h12 hmemI).symm
          have : lookupA jobId (eraseA jobId s.jobs) = none := lookupA_eraseA_self hjobs
          exact lookupA_eq_none_iff.mp this je hje heq
        exact mem_eraseA_of_ne hmemI hne
      · intro je hje
        exact hfresh je (mem_of_mem_eraseA hje)
      · intro je hje
        exact hconfirm je (mem_of_mem_eraseA hje)
    · rw [Scheduler.cancel_terminal hl hst]
      exact ⟨hidx, hjobs, hfwd, hbwd, hfresh, hconfirm⟩

theorem schedInv_processJobs {s : Scheduler} (hinv : SchedInv s) (now : Nat) :
    SchedInv (s.processJobs now) := by
  obtain ⟨hidx, hjobs, hfwd, hbwd, hfresh, hconfirm⟩ := hinv
  cases hp : s.provider with
  | none =>
    rw [Scheduler.processJobs_noProvider now hp]
    exact ⟨hidx, hjobs, hfwd, hbwd, hfresh, hconfirm⟩
  | some p =>
    unfold Scheduler.processJobs
    rw [hp]
    refine ⟨hidx, keysDistinct_map hjobs, ?_, ?_, ?_, ?_⟩
    · intro e he
      obtain ⟨je, hje, h1, h2⟩ := hfwd e he
      refine ⟨(je.1, Scheduler.processJob p now je.2), ?_, h1, ?_⟩
      · exact List.mem_map_of_mem _ hje
      · rw [(Scheduler.processJob_preserves p now je.2).2.1, h2]
    · intro je' hje'
      obtain ⟨je, hje, hmapped⟩ := List.mem_map.mp hje'
      subst hmapped
      have := hbwd je hje
      simpa [(Scheduler.processJob_preserves p now je.2).2.1] using this
    · intro je' hje'
      obtain ⟨je, hje, hmapped⟩ := List.mem_map.mp hje'
      subst hmapped
      exact hfresh je hje
    · intro je' hje'
      obtain ⟨je, hje, hmapped⟩ := List.mem_map.mp hje'
      subst hmapped
      show (Scheduler.processJob p now je.2).request.confirm = true
      rw [(Scheduler.processJob_preserves p now je.2).2.2.1]
      exact hconfirm je hje

theorem schedInv_applyOp {s : Scheduler} (hinv : SchedInv s) (op : SchedOp) :
    SchedInv (applyOp s op) := by
  cases op with
  | schedule req now => exact schedInv_schedule hinv req now
  | cancel jobId => exact schedInv_cancel hinv jobId
  | clear =>
    obtain ⟨_, _, _, _, _, _⟩ := hinv
    refine ⟨?_, ?_, ?_, ?_, ?_, ?_⟩ <;> simp [applyOp, Scheduler.clear, KeysDistinct]
  | tick now => exact schedInv_processJobs hinv now
  | setProvider p =>
    obtain ⟨hidx, hjobs, hfwd, hbwd, hfresh, hconfirm⟩ := hinv
    exact ⟨hidx, hjobs, hfwd, hbwd, hfresh, hconfirm⟩

theorem schedInv_applyOps (ops : List SchedOp) :
    ∀ (s : Scheduler), SchedInv s → SchedInv (applyOps s ops) := by
  induction ops with
  | nil =>
    intro s hinv
    exact hinv
  | cons op rest ih =>
    intro s hinv
    exact ih (applyOp s op) (schedInv_applyOp hinv op)

/-! ## Claim C9 -/

/-- Claim C9: after any sequence of scheduler operations from the empty
state, the idempotency index and the job table are in lock-step: every
index entry names a job that exists in the table with that key, and
every job's key is in the index mapped to its id. -/
theorem c9_index_table_lockstep (ops : List SchedOp) :
    (∀ e ∈ (applyOps Scheduler.init ops).idempotencyIndex,
       ∃ je ∈ (applyOps Scheduler.init ops).jobs,
         je.1 = e.2 ∧ je.2.idempotencyKey = e.1) ∧
    (∀ je ∈ (applyOps Scheduler.init ops).jobs,
       (je.2.idempotencyKey, je.1) ∈ (applyOps Scheduler.init ops).idempotencyIndex) := by
  have h := schedInv_applyOps ops Scheduler.init schedInv_init
  exact ⟨h.2.2.1, h.2.2.2.1⟩

/-! ## Claim C6 -/

/-- Claim C6: under any single scheduler operation (and hence any
sequence of them), a job's status either stays what it was — with a
terminal (executed/failed) job left entirely unchanged — or moves from
pending to one of the terminal states; statuses never move backward and
never between the two terminal states, so a job leaves pending at most
once. -/
theorem c6_status_transitions (s : Scheduler) (op : SchedOp) (jobId : Nat)
    (job job' : ScheduledJob) (hinv : SchedInv s)
    (hbefore : s.getJob jobId = some job)
    (hafter : (applyOp s op).getJob jobId = some job') :
    (job'.status = job.status ∧ (job.status ≠ JobStatus.pending → job' = job)) ∨
    (job.status = JobStatus.pending ∧
      (job'.status = JobStatus.executed ∨ job'.status = JobStatus.failed)) := by
  rw [Scheduler.getJob] at hbefore
  cases op with
  | schedule req now =>
    cases hl : lookupA req.idempotencyKey s.idempotencyIndex with
    | some id =>
      have : applyOp s (SchedOp.schedule req now) = s := by
        show (s.schedule req now).2 = s
        rw [Scheduler.schedule_hit hl now]
      rw [this, Scheduler.getJob, hbefore] at hafter
      obtain rfl : job = job' := Option.some.inj hafter
      exact Or.inl ⟨rfl, fun _ => rfl⟩
    | none =>
      have hne : jobId ≠ s.nextId := by
        have := hinv.2.2.2.2.1 _ (mem_of_lookupA_eq_some hbefore)
        omega
      have : (applyOp s (SchedOp.schedule req now)).getJob jobId
          = lookupA jobId s.jobs := by
        show (s.schedule req now).2.getJob jobId = _
        rw [Scheduler.schedule_miss hl now, Scheduler.getJob]
        exact lookupA_setA_ne _ _ hne
      rw [this, hbefore] at hafter
      obtain rfl : job = job' := Option.some.inj hafter
      exact Or.inl ⟨rfl, fun _ => rfl⟩
  | cancel cid =>
    cases hl : lookupA cid s.jobs with
    | none =>
      have : applyOp s (SchedOp.cancel cid) = s := by
        show (s.cancel cid).2 = s
        rw [Scheduler.cancel_miss hl]
      rw [this, Scheduler.getJob, hbefore] at hafter
      obtain rfl : job = job' := Option.some.inj hafter
      exact Or.inl ⟨rfl, fun _ => rfl⟩
    | some cjob =>
      by_cases hst : cjob.status = JobStatus.pending
      · by_cases hid : jobId = cid
        · subst hid
          have : (applyOp s (SchedOp.cancel jobId)).getJob jobId = none := by
            show (s.cancel jobId).2.getJob jobId = none
            rw [Scheduler.cancel_pending hl hst, Scheduler.getJob]
            exact lookupA_eraseA_self hinv.2.1
          rw [this] at hafter
          exact absurd hafter (by simp)
        · have : (applyOp s (SchedOp.cancel cid)).getJob jobId
              = lookupA jobId s.jobs := by
            show (s.cancel cid).2.getJob jobId = _
            rw [Scheduler.cancel_pending hl hst, Scheduler.getJob]
            exact lookupA_eraseA_ne _ hid
          rw [this, hbefore] at hafter
          obtain rfl : job = job' := Option.some.inj hafter
          exact Or.inl ⟨rfl, fun _ => rfl⟩
      · have : applyOp s (SchedOp.cancel cid) = s := by
          show (s.cancel cid).2 = s
          rw [Scheduler.cancel_terminal hl hst]
        rw [this, Scheduler.getJob, hbefore] at hafter
        obtain rfl : job = job' := Option.some.inj hafter
        exact Or.inl ⟨rfl, fun _ => rfl⟩
  | clear =>
    have : (applyOp s SchedOp.clear).getJob jobId = none := by
      show (s.clear).getJob jobId = none
      rfl
    rw [this] at hafter
    exact absurd hafter (by simp)
  | tick now =>
    cases hp : s.provider with
    | none =>
      have : applyOp s (SchedOp.tick now) = s := by
        show s.processJobs now = s
        exact Scheduler.processJobs_noProvider now hp
      rw [this, Scheduler.getJob, hbefore] at hafter
      obtain rfl : job = job' := Option.some.inj hafter
      exact Or.inl ⟨rfl, fun _ => rfl⟩
    | some p =>
      have : (applyOp s (SchedOp.tick now)).getJob jobId
          = some (Scheduler.processJob p now job) := by
        show (s.processJobs now).getJob jobId = _
        rw [Scheduler.getJob_processJobs hp now jobId, Scheduler.getJob, hbefore]
        rfl
      rw [this] at hafter
      obtain rfl : Scheduler.processJob p now job = job' := Option.some.inj hafter
      rcases Scheduler.processJob_status p now job with ⟨hstat, heq⟩ | ⟨hpend, hterm⟩
      · exact Or.inl ⟨hstat, fun _ => heq⟩
      · exact Or.inr ⟨hpend, hterm⟩
  | setProvider p =>
    have : (applyOp s (SchedOp.setProvider p)).getJob jobId = lookupA jobId s.jobs := by
      show (s.setProvider p).getJob jobId = _
      rfl
    rw [this, hbefore] at hafter
    obtain rfl : job = job' := Option.some.inj hafter
    exact Or.inl ⟨rfl, fun _ => rfl⟩

/-! ## Witnesses for the scheduler claims -/

/-- Witness for C4: the empty scheduler, two schedule calls with key
"key-1" and different payloads. -/
theorem c4_schedule_idempotent_witness :
    SchedInv Scheduler.init ∧
    lookupA sampleReq.idempotencyKey Scheduler.init.idempotencyIndex = none ∧
    sampleReq2.idempotencyKey = sampleReq.idempotencyKey ∧
    ((Scheduler.init.schedule sampleReq 5).1.2 = true ∧
     ((Scheduler.init.schedule sampleReq 5).2.schedule sampleReq2 6).1.2 = false ∧
     ((Scheduler.init.schedule sampleReq 5).2.schedule sampleReq2 6).1.1
        = (Scheduler.init.schedule sampleReq 5).1.1 ∧
     ((Scheduler.init.schedule sampleReq 5).2.schedule sampleReq2 6).2
        = (Scheduler.init.schedule sampleReq 5).2 ∧
     (Scheduler.init.schedule sampleReq 5).2.getJob (Scheduler.init.schedule sampleReq 5).1.1
        = some (Scheduler.newJob Scheduler.init.nextId sampleReq 5) ∧
     ((Scheduler.init.schedule sampleReq 5).2.jobs.countP
        (fun je => je.2.idempotencyKey == sampleReq.idempotencyKey)) = 1) :=
  ⟨by decide, by decide, by decide,
   Scheduler.c4_schedule_idempotent Scheduler.init sampleReq sampleReq2 5 6
     (by decide) (by decide) (by decide)⟩

/-- Witness for C5: a scheduler holding one pending job with id 0. -/
theorem c5_cancel_iff_witness :
    SchedInv sampleScheduler ∧
    (((sampleScheduler.cancel 0).1 = true ↔
       ∃ job, sampleScheduler.getJob 0 = some job ∧ job.status = JobStatus.pending) ∧
     ((sampleScheduler.cancel 0).1 = false → (sampleScheduler.cancel 0).2 = sampleScheduler) ∧
     (∀ job, sampleScheduler.getJob 0 = some job → job.status = JobStatus.pending →
        (sampleScheduler.cancel 0).2.getJob 0 = none ∧
        lookupA job.idempotencyKey (sampleScheduler.cancel 0).2.idempotencyIndex = none)) :=
  ⟨by decide, Scheduler.c5_cancel_iff sampleScheduler 0 (by decide)⟩

/-- Witness for C6: a tick with no provider leaves the pending job of
`sampleScheduler` unchanged. -/
theorem c6_status_transitions_witness :
    SchedInv sampleScheduler ∧
    sampleScheduler.getJob 0 = some sampleJob ∧
    (applyOp sampleScheduler (SchedOp.tick 100)).getJob 0 = some sampleJob ∧
    ((sampleJob.status = sampleJob.status ∧
       (sampleJob.status ≠ JobStatus.pending → sampleJob = sampleJob)) ∨
     (sampleJob.status = JobStatus.pending ∧
       (sampleJob.status = JobStatus.executed ∨ sampleJob.status = JobStatus.failed))) :=
  ⟨by decide, by decide, by decide,
   c6_status_transitions sampleScheduler (SchedOp.tick 100) 0 sampleJob sampleJob
     (by decide) (by decide) (by decide)⟩

/-- Witness for C7: two due pending jobs under a provider that succeeds
for one and throws for the other. -/
theorem c7_tick_processes_due_jobs_witness :
    sampleScheduler2.provider = some sampleProvider ∧
    SchedInv sampleScheduler2 ∧
    (∀ jobId job, sampleScheduler2.getJob jobId = some job →
      job.request.confirm = true ∧
      (job.status = JobStatus.pending → job.executeAt ≤ 60 →
        (∀ result, sampleProvider job.request = SendOutcome.ok result →
          (result.status = ExecutionStatus.sent →
            (sampleScheduler2.processJobs 60).getJob jobId
              = some { job with status := JobStatus.executed, executedAt := some 60 }) ∧
          (result.status ≠ ExecutionStatus.sent →
            (sampleScheduler2.processJobs 60).getJob jobId
              = some { job with status := JobStatus.failed,
                                error := some (result.error.getD "Unknown error") })) ∧
        (∀ msg, sampleProvider job.request = SendOutcome.thrown msg →
          (sampleScheduler2.processJobs 60).getJob jobId
            = some { job with status := JobStatus.failed, error := some msg })) ∧
      (job.status = JobStatus.pending → 60 < job.executeAt →
        (sampleScheduler2.processJobs 60).getJob jobId = some job)) :=
  ⟨rfl, by decide,
   Scheduler.c7_tick_processes_due_jobs sampleScheduler2 sampleProvider 60 rfl (by decide)⟩

/-- Witness for C8: a tick on a scheduler with a due pending job but no
provider changes nothing. -/
theorem c8_tick_without_provider_witness :
    sampleScheduler.provider = none ∧
    sampleScheduler.processJobs 100 = sampleScheduler :=
  ⟨rfl, Scheduler.c8_tick_without_provider sampleScheduler 100 rfl⟩

/-- Witness for C10: cancel the pending job with key "key-1", then
schedule again under the same key. -/
theorem c10_cancel_frees_key_witness :
    SchedInv sampleScheduler ∧
    sampleScheduler.getJob 0 = some sampleJob ∧
    sampleJob.status = JobStatus.pending ∧
    sampleReq.idempotencyKey = sampleJob.idempotencyKey ∧
    (((sampleScheduler.cancel 0).2.schedule sampleReq 10).1.2 = true ∧
     ((sampleScheduler.cancel 0).2.schedule sampleReq 10).1.1 ≠ 0 ∧
     ((sampleScheduler.cancel 0).2.schedule sampleReq 10).2.getJob
        ((sampleScheduler.cancel 0).2.schedule sampleReq 10).1.1
       = some (Scheduler.newJob (sampleScheduler.cancel 0).2.nextId sampleReq 10)) :=
  ⟨by decide, by decide, by decide, by decide,
   Scheduler.c10_cancel_frees_key sampleScheduler 0 sampleJob sampleReq 10
     (by decide) (by decide) (by decide) (by decide)⟩

end PersonaMcp
